import Mathlib

/-!
Verification of the boost_playground parsing examples.

The development embeds, as executable Lean functions over `List Char`,

* the arithmetic calculator of `basic_calc_ast.cpp` (AST types,
  `calc_program_eval`, and the `calc_grammar` rules `expression`, `term`,
  `factor`),
* the synthesized-attribute calculator of `basic_calc_with_synth_attr.cpp`,
* the filter/command DSL of `very_small_sql_like_dsl.cpp`,
* the SELECT grammar of `basic_sql_select2.cpp`.

Boost.Spirit Qi conventions embedded here: each grammar uses the
`ascii::space` skipper, which is applied before every primitive
parser of a phrase-level rule ("pre-skip") and once after a successful
`phrase_parse` (the default post-skip); rules declared without a skipper
(`strlit_`, `property_` of the DSL) and `lexeme[...]` directives pre-skip
once on entry and never skip internally.  Alternatives are PEG ordered
choice (first success wins, committed), failing branches restore the input
position, and Kleene star / plus / list repetition stops at the first
failing iteration, restoring the position of that failed attempt.
Recursive and iterative rules take an explicit fuel argument; fuel
exhaustion yields a plain parse failure, and every universal theorem below
quantifies over the fuel while concrete runs use a fuel that is visibly
large enough for their input.

Machine arithmetic: C++ `int` division truncates toward zero
(`Int.tdiv`); division by zero and the `BOOST_ASSERT(0)` branches of
`calc_program_eval` have no defined C++ result, so evaluation results live
in `EvalRes`, whose `error` constructor records which undefined /
asserting situation was reached (`divByZero`, `badSign`, `badOp`).
-/

/-! ## Characters and the whitespace skipper -/

/-- Single-quote character, the string-literal delimiter of the DSL and
SELECT grammars. -/
def qc : Char := Char.ofNat 39

/-- Backslash, the escape character of the DSL string literal. -/
def bslc : Char := Char.ofNat 92

/-- Membership in `ascii::space`: blank, tab, newline, vertical tab, form
feed, carriage return. -/
def isSpaceA (c : Char) : Bool :=
  c = ' ' || c = Char.ofNat 9 || c = Char.ofNat 10 || c = Char.ofNat 11 ||
  c = Char.ofNat 12 || c = Char.ofNat 13

/-- ASCII letter, as matched by the `alpha` parser. -/
def isAlphaA (c : Char) : Bool :=
  ('a' ≤ c && c ≤ 'z') || ('A' ≤ c && c ≤ 'Z')

/-- ASCII digit, as matched by `digit` and inside `uint_` / `int_`. -/
def isDigitA (c : Char) : Bool :=
  '0' ≤ c && c ≤ '9'

/-- ASCII letter or digit, as matched by the `alnum` parser. -/
def isAlnumA (c : Char) : Bool :=
  isAlphaA c || isDigitA c

/-- ASCII lower-casing, the character normalisation of `no_case[...]`. -/
def lowerA (c : Char) : Char :=
  if 'A' ≤ c && c ≤ 'Z' then Char.ofNat (c.toNat + 32) else c

/-- Skipper run: drop the longest prefix of `ascii::space` characters. -/
def skipWs (s : List Char) : List Char :=
  s.dropWhile isSpaceA

/-- View of a Lean string literal as the character stream it denotes. -/
def chars (s : String) : List Char :=
  s.toList

/-- Numeric value of a digit string, most significant digit first. -/
def natOfDigits (ds : List Char) : Nat :=
  ds.foldl (fun a c => a * 10 + (c.toNat - 48)) 0

/-- Case-insensitive keyword match (`no_case[kw]`): consume the characters
of `kw` (given lower-case) from the input, lower-casing each input
character before comparing; no word-boundary check is performed, exactly
as for a Qi literal. -/
def kwMatch : List Char → List Char → Option (List Char)
  | [], s => some s
  | k :: kt, c :: ct => if lowerA c = k then kwMatch kt ct else none
  | _ :: _, [] => none

/-- Keyword token: pre-skip then case-insensitive keyword match. -/
def kwTok (kw : List Char) (s : List Char) : Option (List Char) :=
  kwMatch kw (skipWs s)

/-- Character token `char_(c)`: pre-skip, then match exactly `c` and
synthesize it. -/
def parseCharTok (c : Char) (s : List Char) : Option (Char × List Char) :=
  match skipWs s with
  | x :: rs => if x = c then some (c, rs) else none
  | [] => none

/-- Literal token `lit(c)`: pre-skip, then match exactly `c`, no
attribute. -/
def parseLit (c : Char) (s : List Char) : Option (List Char) :=
  match skipWs s with
  | x :: rs => if x = c then some rs else none
  | [] => none

/-- Unsigned integer token `uint_`: pre-skip, then one or more contiguous
digits whose value fits an unsigned 32-bit int (Qi's `uint_` fails on
overflow, restoring the position). -/
def parseUInt (s : List Char) : Option (Nat × List Char) :=
  let t := skipWs s
  let ds := t.takeWhile isDigitA
  let r := t.dropWhile isDigitA
  if ds.isEmpty then none
  else
    let v := natOfDigits ds
    if v < 4294967296 then some (v, r) else none

/-! ## Arithmetic AST (`basic_calc_ast.cpp`)

`calc_operand` is the Boost.Variant
`variant<calc_number, calc_signed_number, calc_program>`; the struct
`calc_signed_number { sign_, operand_ }` appears as the `signedNumber`
constructor, and the struct `calc_program { first_, rest_ }` as the
`program` constructor, its `std::list<calc_operation>` field represented
by `CalcOps`, whose `cons` carries the fields `operator_` and `operand_`
of one `calc_operation`. -/

mutual
inductive CalcOperand : Type where
  | num (value : Nat) : CalcOperand
  | signedNumber (sign : Char) (operand : CalcOperand) : CalcOperand
  | program (first : CalcOperand) (rest : CalcOps) : CalcOperand
inductive CalcOps : Type where
  | nil : CalcOps
  | cons (oper : Char) (operand : CalcOperand) (rest : CalcOps) : CalcOps
end

/-- Reasons evaluation of a `calc_operand` leaves defined C++ behaviour:
`divByZero` is the unguarded `lhs / rhs` with `rhs == 0`, `badSign` and
`badOp` are the `BOOST_ASSERT(0)` branches of `calc_program_eval`. -/
inductive EvalErr where
  | divByZero
  | badSign
  | badOp
deriving DecidableEq

/-- Result of evaluating (part of) an arithmetic AST: an `int`, or one of
the undefined / asserting situations of `EvalErr`. -/
inductive EvalRes where
  | ok (value : Int)
  | error (e : EvalErr)
deriving DecidableEq

/-- One step of `calc_program_eval::operator()(calc_operation, int)`: the
`switch` on `operator_`, with `lhs / rhs` as C++ truncated division,
undefined (hence `error .divByZero`) when `rhs` is zero, and the
`BOOST_ASSERT(0)` default branch as `error .badOp`. -/
def applyOp (c : Char) (lhs rhs : Int) : EvalRes :=
  if c = '-' then .ok (lhs - rhs)
  else if c = '+' then .ok (lhs + rhs)
  else if c = '*' then .ok (lhs * rhs)
  else if c = '/' then (if rhs = 0 then .error .divByZero else .ok (Int.tdiv lhs rhs))
  else .error .badOp

mutual
/-- The visitor `calc_program_eval`: numbers evaluate to themselves,
`calc_signed_number` evaluates its operand and switches on the sign (the
`BOOST_ASSERT(0)` default is `error .badSign`), `calc_program` evaluates
`first_` and folds `rest_` left-to-right. -/
def evalOperand : CalcOperand → EvalRes
  | .num n => .ok (Int.ofNat n)
  | .signedNumber sg x =>
    match evalOperand x with
    | .error e => .error e
    | .ok rhs =>
      if sg = '-' then .ok (-rhs)
      else if sg = '+' then .ok rhs
      else .error .badSign
  | .program f rest =>
    match evalOperand f with
    | .error e => .error e
    | .ok st => evalRest st rest
/-- The `BOOST_FOREACH` fold of `calc_program_eval::operator()(calc_program)`:
apply each operation of `rest_` to the running accumulator, left to
right. -/
def evalRest (st : Int) : CalcOps → EvalRes
  | .nil => .ok st
  | .cons c x rs =>
    match evalOperand x with
    | .error e => .error e
    | .ok rhs =>
      match applyOp c st rhs with
      | .error e => .error e
      | .ok st2 => evalRest st2 rs
end

/-! ## The AST-building grammar (`calc_grammar` of `basic_calc_ast.cpp`)

The rules are
`expression = term >> *( (char_('+') >> term) | (char_('-') >> term) )`,
`term = factor >> *( (char_('*') >> factor) | (char_('/') >> factor) )`,
`factor = uint_ | '(' >> expression >> ')' | (char_('-') >> factor) | (char_('+') >> factor)`.
`exprOf`/`termOf`/`starOps` are written over an explicit `factor`
parameter so that the only recursion is the fuel recursion of
`astFactor`. -/

/-- One alternative `char_(c) >> item` of a repetition body. -/
def opStep (item : List Char → Option (CalcOperand × List Char)) (c : Char)
    (s : List Char) : Option (CalcOperand × List Char) :=
  match parseCharTok c s with
  | some (_, s1) => item s1
  | none => none

/-- The repetition `*( (char_(c1) >> item) | (char_(c2) >> item) )`,
collecting the `calc_operation` list; each failing attempt restores the
position, ending the star. -/
def starOps (item : List Char → Option (CalcOperand × List Char))
    (c1 c2 : Char) : Nat → List Char → Option (CalcOps × List Char)
  | 0, _ => none
  | fuel+1, s =>
    match opStep item c1 s with
    | some (x, s1) =>
      match starOps item c1 c2 fuel s1 with
      | some (ops, s2) => some (.cons c1 x ops, s2)
      | none => none
    | none =>
      match opStep item c2 s with
      | some (x, s1) =>
        match starOps item c1 c2 fuel s1 with
        | some (ops, s2) => some (.cons c2 x ops, s2)
        | none => none
      | none => some (.nil, s)

/-- The `term` rule over a given `factor`: a factor followed by the
`'*'`/`'/'` repetition, synthesizing a `calc_program`. -/
def termOf (factor : List Char → Option (CalcOperand × List Char))
    (fuel : Nat) (s : List Char) : Option (CalcOperand × List Char) :=
  match factor s with
  | some (f, s1) =>
    match starOps factor '*' '/' fuel s1 with
    | some (ops, s2) => some (.program f ops, s2)
    | none => none
  | none => none

/-- The `expression` rule over a given `factor`: a term followed by the
`'+'`/`'-'` repetition, synthesizing a `calc_program` whose `first_` is
the term's program. -/
def exprOf (factor : List Char → Option (CalcOperand × List Char))
    (fuel : Nat) (s : List Char) : Option (CalcOperand × List Char) :=
  match termOf factor fuel s with
  | some (t, s1) =>
    match starOps (termOf factor fuel) '+' '-' fuel s1 with
    | some (ops, s2) => some (.program t ops, s2)
    | none => none
  | none => none

/-- The alternative `'(' >> expression >> ')'` of `factor`. -/
def parenOf (factor : List Char → Option (CalcOperand × List Char))
    (fuel : Nat) (s : List Char) : Option (CalcOperand × List Char) :=
  match parseLit '(' s with
  | some s1 =>
    match exprOf factor fuel s1 with
    | some (x, s2) =>
      match parseLit ')' s2 with
      | some s3 => some (x, s3)
      | none => none
    | none => none
  | none => none

/-- The alternative `char_(c) >> factor` of `factor`, synthesizing a
`calc_signed_number`. -/
def signOf (factor : List Char → Option (CalcOperand × List Char))
    (c : Char) (s : List Char) : Option (CalcOperand × List Char) :=
  match parseCharTok c s with
  | some (sg, s1) =>
    match factor s1 with
    | some (x, s2) => some (.signedNumber sg x, s2)
    | none => none
  | none => none

/-- The `factor` rule: ordered alternatives `uint_`, parenthesised
expression, `'-' >> factor`, `'+' >> factor`. -/
def astFactor : Nat → List Char → Option (CalcOperand × List Char)
  | 0, _ => none
  | fuel+1, s =>
    match parseUInt s with
    | some (n, s1) => some (.num n, s1)
    | none =>
      match parenOf (astFactor fuel) fuel s with
      | some r => some r
      | none =>
        match signOf (astFactor fuel) '-' s with
        | some r => some r
        | none => signOf (astFactor fuel) '+' s

/-- The grammar entry rule `expression`. -/
def astExpression (fuel : Nat) (s : List Char) : Option (CalcOperand × List Char) :=
  exprOf (astFactor fuel) fuel s

/-- The `phrase_parse` call of `basic_calc_ast.cpp`'s driver: run the
entry rule and post-skip trailing whitespace on success. -/
def astPhraseParse (fuel : Nat) (s : List Char) : Option (CalcOperand × List Char) :=
  (astExpression fuel s).map (fun p => (p.1, skipWs p.2))

/-- Parse a full line and evaluate it, the success path of the AST
calculator's driver (`phrase_parse(...) && iter == end`, then
`eval(prog)`); `none` when the grammar fails or leaves input. -/
def runCalcAst (fuel : Nat) (line : List Char) : Option EvalRes :=
  match astPhraseParse fuel line with
  | some (prog, []) => some (evalOperand prog)
  | _ => none

/-! ## The synthesized-attribute grammar (`basic_calc_with_synth_attr.cpp`)

The same three rules compute the integer during parsing through the
semantic actions `_val = _1`, `_val += _1`, `_val -= _1`, `_val *= _1`,
`_val /= _1`, `_val = -_1`, `_val = +_1`.  The synthesized value is an
`EvalRes` so that the undefined division by zero of `_val /= _1` is
tracked instead of silently producing a number; the tracked value never
influences what is consumed. -/

/-- Semantic action `_val += _1` on tracked values. -/
def addE : EvalRes → EvalRes → EvalRes
  | .error e, _ => .error e
  | .ok _, .error e => .error e
  | .ok a, .ok b => .ok (a + b)

/-- Semantic action `_val -= _1` on tracked values. -/
def subE : EvalRes → EvalRes → EvalRes
  | .error e, _ => .error e
  | .ok _, .error e => .error e
  | .ok a, .ok b => .ok (a - b)

/-- Semantic action `_val *= _1` on tracked values. -/
def mulE : EvalRes → EvalRes → EvalRes
  | .error e, _ => .error e
  | .ok _, .error e => .error e
  | .ok a, .ok b => .ok (a * b)

/-- Semantic action `_val /= _1` on tracked values: C++ truncated `int`
division, undefined on a zero divisor. -/
def divE : EvalRes → EvalRes → EvalRes
  | .error e, _ => .error e
  | .ok _, .error e => .error e
  | .ok a, .ok b => if b = 0 then .error .divByZero else .ok (Int.tdiv a b)

/-- Semantic action `_val = -_1` on tracked values. -/
def negE : EvalRes → EvalRes
  | .error e => .error e
  | .ok a => .ok (-a)

/-- Semantic action `_val = +_1` on tracked values: unary plus on `int`
is the identity. -/
def posE : EvalRes → EvalRes
  | .error e => .error e
  | .ok a => .ok a

/-- One alternative `lit(c) >> item` of a repetition body of the
synthesized-attribute grammar. -/
def sOpStep (item : List Char → Option (EvalRes × List Char)) (c : Char)
    (s : List Char) : Option (EvalRes × List Char) :=
  match parseCharTok c s with
  | some (_, s1) => item s1
  | none => none

/-- The repetition `*( (lit(c1) >> item [_val ⊙ g1]) | (lit(c2) >> item [_val ⊙ g2]) )`
folding the semantic actions `g1`/`g2` against the running attribute
`st`. -/
def sStarOps (item : List Char → Option (EvalRes × List Char)) (c1 c2 : Char)
    (g1 g2 : EvalRes → EvalRes → EvalRes) :
    Nat → EvalRes → List Char → Option (EvalRes × List Char)
  | 0, _, _ => none
  | fuel+1, st, s =>
    match sOpStep item c1 s with
    | some (v, s1) => sStarOps item c1 c2 g1 g2 fuel (g1 st v) s1
    | none =>
      match sOpStep item c2 s with
      | some (v, s1) => sStarOps item c1 c2 g1 g2 fuel (g2 st v) s1
      | none => some (st, s)

/-- The synthesized-attribute `term` rule over a given `factor`:
`factor [_val = _1] >> *( ('*' >> factor [_val *= _1]) | ('/' >> factor [_val /= _1]) )`. -/
def sTermOf (factor : List Char → Option (EvalRes × List Char))
    (fuel : Nat) (s : List Char) : Option (EvalRes × List Char) :=
  match factor s with
  | some (v, s1) => sStarOps factor '*' '/' mulE divE fuel v s1
  | none => none

/-- The synthesized-attribute `expression` rule over a given `factor`:
`term [_val = _1] >> *( ('+' >> term [_val += _1]) | ('-' >> term [_val -= _1]) )`. -/
def sExprOf (factor : List Char → Option (EvalRes × List Char))
    (fuel : Nat) (s : List Char) : Option (EvalRes × List Char) :=
  match sTermOf factor fuel s with
  | some (v, s1) => sStarOps (sTermOf factor fuel) '+' '-' addE subE fuel v s1
  | none => none

/-- The alternative `'(' >> expression [_val = _1] >> ')'` of the
synthesized-attribute `factor`. -/
def sParenOf (factor : List Char → Option (EvalRes × List Char))
    (fuel : Nat) (s : List Char) : Option (EvalRes × List Char) :=
  match parseLit '(' s with
  | some s1 =>
    match sExprOf factor fuel s1 with
    | some (v, s2) =>
      match parseLit ')' s2 with
      | some s3 => some (v, s3)
      | none => none
    | none => none
  | none => none

/-- The alternative `lit(c) >> factor [_val = act(_1)]` of the
synthesized-attribute `factor`. -/
def sSignOf (factor : List Char → Option (EvalRes × List Char))
    (c : Char) (act : EvalRes → EvalRes) (s : List Char) :
    Option (EvalRes × List Char) :=
  match parseCharTok c s with
  | some (_, s1) =>
    match factor s1 with
    | some (v, s2) => some (act v, s2)
    | none => none
  | none => none

/-- The synthesized-attribute `factor` rule:
`uint_ [_val = _1] | '(' >> expression [_val = _1] >> ')' | ('-' >> factor [_val = -_1]) | ('+' >> factor [_val = +_1])`. -/
def sFactor : Nat → List Char → Option (EvalRes × List Char)
  | 0, _ => none
  | fuel+1, s =>
    match parseUInt s with
    | some (n, s1) => some (.ok (Int.ofNat n), s1)
    | none =>
      match sParenOf (sFactor fuel) fuel s with
      | some r => some r
      | none =>
        match sSignOf (sFactor fuel) '-' negE s with
        | some r => some r
        | none => sSignOf (sFactor fuel) '+' posE s

/-- The synthesized-attribute grammar's entry rule `expression`. -/
def sExpression (fuel : Nat) (s : List Char) : Option (EvalRes × List Char) :=
  sExprOf (sFactor fuel) fuel s

/-- The `phrase_parse` call of `basic_calc_with_synth_attr.cpp`'s driver:
run the entry rule and post-skip trailing whitespace on success. -/
def sPhraseParse (fuel : Nat) (s : List Char) : Option (EvalRes × List Char) :=
  (sExpression fuel s).map (fun p => (p.1, skipWs p.2))

/-- What the driver of `basic_calc_with_synth_attr.cpp` prints for one
line: the parsed result, or failure together with the unconsumed
suffix `std::string rest(iter, end)`. -/
inductive CalcReport where
  | success (res : EvalRes)
  | failure (rest : List Char)
deriving DecidableEq

/-- The per-line driver contract of `basic_calc_with_synth_attr.cpp`'s
`main`: success exactly when `phrase_parse` succeeds and `iter == end`;
otherwise failure carrying the unconsumed suffix (the whole line when the
grammar itself failed, since a failing rule restores the iterator). -/
def calcDriver (fuel : Nat) (line : List Char) : CalcReport :=
  match sPhraseParse fuel line with
  | some (v, []) => .success v
  | some (_, rest) => .failure rest
  | none => .failure line

/-! ## Filter/command DSL AST (`very_small_sql_like_dsl.cpp`) -/

/-- The struct `regex { pattern_ }`, built by `regex_` from a string
literal. -/
structure DslRegex where
  pattern_ : String
deriving DecidableEq

/-- The variant `value = boost::variant<double, int, std::string, regex>`.
The `double` payload is represented exactly as a rational number, which
is faithful for every finite decimal literal the embedded `double_`
model accepts. -/
inductive DslValue where
  | vdouble (d : Rat)
  | vint (i : Int)
  | vstring (s : String)
  | vregex (r : DslRegex)
deriving DecidableEq

/-- Test for the `int` alternative of the `value` variant. -/
def DslValue.isInt : DslValue → Bool
  | .vint _ => true
  | _ => false

/-- The struct `condition { negated_, property_, value_ }`. -/
structure DslCondition where
  negated_ : Bool
  property_ : String
  value_ : DslValue
deriving DecidableEq

/-- The enum `logicOp { logicFirst, logicAnd, logicOr }`. -/
inductive LogicOp where
  | logicFirst
  | logicAnd
  | logicOr
deriving DecidableEq

/-- The struct `filter { op_, condition_ }`. -/
structure DslFilter where
  op_ : LogicOp
  condition_ : DslCondition
deriving DecidableEq

/-- The pair `assignment = std::pair<property, value>`. -/
abbrev DslAssignment := String × DslValue

/-- The variant `command = boost::variant<set_command, print_command>`,
with `set_command { assignments_ }` and `print_command { properties_ }`
inlined as constructor fields. -/
inductive DslCommand where
  | cset (assignments_ : List DslAssignment)
  | cprint (properties_ : List String)
deriving DecidableEq

/-- The struct `statement { filters_, command_ }`. -/
structure DslStatement where
  filters_ : List DslFilter
  command_ : DslCommand
deriving DecidableEq

/-- Result of a Qi phrase parse with expectation points: `ok` with the
attribute and the remaining input, `fail` for an ordinary (backtrackable)
mismatch, `err` for an `expectation_failure` (the `>` operator), carrying
the remaining input at the failure position; an `err` propagates through
every enclosing combinator without any alternative being retried, exactly
as the thrown `expectation_failure` exception does. -/
inductive PR (α : Type) where
  | ok (attr : α) (rest : List Char)
  | fail
  | err (rest : List Char)
deriving DecidableEq

/-! ## Filter/command DSL grammar (`dsl_grammar`) -/

/-- Body of the DSL string literal, the repetition
`*( (lit(bslc) >> char_) | ~char_(qc) )`: an escape pair contributes only
the escaped character (the `lit` has no attribute), any non-quote
character contributes itself, and the scan stops in front of an unescaped
quote or at the end of input (a trailing lone backslash is consumed by
the `~char_(qc)` alternative after the escape alternative fails at end of
input).  Returns the synthesized content and the remaining input. -/
def strBody : List Char → (List Char × List Char)
  | [] => ([], [])
  | c :: rs =>
    if c = bslc then
      match rs with
      | c2 :: rs2 =>
        let p := strBody rs2
        (c2 :: p.1, p.2)
      | [] => ([c], [])
    else if c = qc then ([], c :: rs)
    else
      let p := strBody rs
      (c :: p.1, p.2)

/-- The rule `strlit_ = "'" >> *( (lit(bslc) >> char_) | ~char_("'") ) > "'"`.
It is declared without a skipper, hence an implicit `lexeme` with one
pre-skip on entry; the closing quote sits behind the expectation
operator `>`, so failing to find it is an `expectation_failure`, not a
backtrackable mismatch. -/
def dslStrlit (s : List Char) : PR String :=
  match skipWs s with
  | c :: rs =>
    if c = qc then
      let p := strBody rs
      match p.2 with
      | c2 :: r2 => if c2 = qc then .ok (String.mk p.1) r2 else .err p.2
      | [] => .err []
    else .fail
  | [] => .fail

/-- The rule `property_ = alpha >> *alnum`, skipper-less, hence an
implicit `lexeme` with one pre-skip on entry. -/
def dslProperty (s : List Char) : Option (String × List Char) :=
  match skipWs s with
  | c :: rs =>
    if isAlphaA c then
      some (String.mk (c :: rs.takeWhile isAlnumA), rs.dropWhile isAlnumA)
    else none
  | [] => none

/-- The rule `regex_ = strlit_ [ _val = phx::construct<regex>(_1) ]`. -/
def dslRegex (s : List Char) : PR DslValue :=
  match dslStrlit s with
  | .ok str r => .ok (.vregex ⟨str⟩) r
  | .fail => .fail
  | .err r => .err r

/-- Optional sign of a numeric literal: `'-'`, `'+'`, or nothing;
returns whether the value is negated and the rest. -/
def signSplit (t : List Char) : Bool × List Char :=
  match t with
  | c :: r => if c = '-' then (true, r) else if c = '+' then (false, r) else (false, t)
  | [] => (false, t)

/-- Exponent part of `double_`: `e` or `E`, an optional sign and one or
more digits; when the digits are missing the whole exponent is
backtracked (Qi restores the position in front of the `e`), which `none`
signals here. -/
def expSplit (t : List Char) : Option (Int × List Char) :=
  match t with
  | c :: r =>
    if c = 'e' || c = 'E' then
      let sg := signSplit r
      let ds := sg.2.takeWhile isDigitA
      if ds.isEmpty then none
      else some (if sg.1 then -(natOfDigits ds : Int) else (natOfDigits ds : Int),
                 sg.2.dropWhile isDigitA)
    else none
  | [] => none

/-- Scale a rational by a signed power of ten, for the exponent of a
`double_` literal. -/
def scale10 (v : Rat) (e : Int) : Rat :=
  if 0 ≤ e then v * (10 : Rat) ^ e.toNat else v / (10 : Rat) ^ (-e).toNat

/-- The primitive `double_` with Qi's default `real_policies`: pre-skip,
optional sign, then either digits with an optional fraction (a trailing
dot is allowed) or a leading dot followed by digits, then an optional
exponent.  The special forms `nan` and `inf` of the C++ primitive are
outside this model; no claim depends on them. -/
def doubleTok (s : List Char) : Option (Rat × List Char) :=
  let t := skipWs s
  let sg := signSplit t
  let ip := sg.2.takeWhile isDigitA
  let s2 := sg.2.dropWhile isDigitA
  if ip.isEmpty then
    match s2 with
    | c :: r =>
      if c = '.' then
        let fd := r.takeWhile isDigitA
        if fd.isEmpty then none
        else
          let base : Rat := (natOfDigits fd : Rat) / (10 : Rat) ^ fd.length
          let v := if sg.1 then -base else base
          match expSplit (r.dropWhile isDigitA) with
          | some (e, s4) => some (scale10 v e, s4)
          | none => some (v, r.dropWhile isDigitA)
      else none
    | [] => none
  else
    match s2 with
    | c :: r =>
      if c = '.' then
        let fd := r.takeWhile isDigitA
        let base : Rat := (natOfDigits (ip ++ fd) : Rat) / (10 : Rat) ^ fd.length
        let v := if sg.1 then -base else base
        match expSplit (r.dropWhile isDigitA) with
        | some (e, s4) => some (scale10 v e, s4)
        | none => some (v, r.dropWhile isDigitA)
      else
        let base : Rat := (natOfDigits ip : Rat)
        let v := if sg.1 then -base else base
        match expSplit s2 with
        | some (e, s4) => some (scale10 v e, s4)
        | none => some (v, s2)
    | [] =>
      let base : Rat := (natOfDigits ip : Rat)
      let v := if sg.1 then -base else base
      some (v, s2)

/-- The primitive `int_`: pre-skip, optional sign, one or more digits,
failing (with the position restored) when the value overflows a 32-bit
`int`. -/
def intTok (s : List Char) : Option (Int × List Char) :=
  let t := skipWs s
  let sg := signSplit t
  let ds := sg.2.takeWhile isDigitA
  if ds.isEmpty then none
  else
    let v := natOfDigits ds
    if sg.1 then
      if v ≤ 2147483648 then some (-(v : Int), sg.2.dropWhile isDigitA) else none
    else
      if v ≤ 2147483647 then some ((v : Int), sg.2.dropWhile isDigitA) else none

/-- The rule `value_ = double_ | int_ | strlit_`: ordered choice, the
`double_` alternative first. -/
def dslValueRule (s : List Char) : PR DslValue :=
  match doubleTok s with
  | some (d, r) => .ok (.vdouble d) r
  | none =>
    match intTok s with
    | some (i, r) => .ok (.vint i) r
    | none =>
      match dslStrlit s with
      | .ok str r => .ok (.vstring str) r
      | .fail => .fail
      | .err r => .err r

/-- Tail of the rule `condition_` after its negation alternative:
`property_ >> (no_case["like"] >> regex_ | '=' >> value_)`, with `neg`
the attribute the negation alternative synthesized.  The `like` branch
falls back to the `=` branch only on an ordinary mismatch of the regex
literal, never on an expectation failure. -/
def dslCondTail (neg : Bool) (s : List Char) : PR DslCondition :=
  match dslProperty s with
  | none => .fail
  | some (p, s2) =>
    match kwTok (chars "like") s2 with
    | some s3 =>
      match dslRegex s3 with
      | .ok v r => .ok ⟨neg, p, v⟩ r
      | .err r => .err r
      | .fail =>
        match parseLit '=' s2 with
        | some s3' =>
          match dslValueRule s3' with
          | .ok v r => .ok ⟨neg, p, v⟩ r
          | .fail => .fail
          | .err r => .err r
        | none => .fail
    | none =>
      match parseLit '=' s2 with
      | some s3' =>
        match dslValueRule s3' with
        | .ok v r => .ok ⟨neg, p, v⟩ r
        | .fail => .fail
        | .err r => .err r
      | none => .fail

/-- The rule
`condition_ = (no_case["not"] >> attr(true) | attr(false)) >> property_ >> (no_case["like"] >> regex_ | '=' >> value_)`.
The negation alternative is committed once `not` matches (PEG ordered
choice). -/
def dslCondition (s : List Char) : PR DslCondition :=
  match kwTok (chars "not") s with
  | some s1 => dslCondTail true s1
  | none => dslCondTail false s

/-- Third alternative of the connective keyword of `filters_`:
`no_case["or"] [_pass = size(_val) > 0] >> attr(logicOr)`; the semantic
gate compares the number of filters already accumulated. -/
def dslConnOr (acc : List DslFilter) (s : List Char) : Option (LogicOp × List Char) :=
  match kwTok (chars "or") s with
  | some s1 => if acc.length > 0 then some (.logicOr, s1) else none
  | none => none

/-- Second and third alternatives of the connective keyword of
`filters_`: `no_case["and"] [_pass = size(_val) > 0] >> attr(logicAnd)`,
falling through to the `or` alternative. -/
def dslConnAndOr (acc : List DslFilter) (s : List Char) : Option (LogicOp × List Char) :=
  match kwTok (chars "and") s with
  | some s1 => if acc.length > 0 then some (.logicAnd, s1) else dslConnOr acc s
  | none => dslConnOr acc s

/-- The connective keyword alternative of `filters_`:
`no_case["where"] [_pass = size(_val) == 0] >> attr(logicFirst)` first,
then the `and`/`or` alternatives; a branch whose keyword matches but
whose gate refuses backtracks to the start of the keyword. -/
def dslConn (acc : List DslFilter) (s : List Char) : Option (LogicOp × List Char) :=
  match kwTok (chars "where") s with
  | some s1 => if acc.length = 0 then some (.logicFirst, s1) else dslConnAndOr acc s
  | none => dslConnAndOr acc s

/-- One iteration of `filters_ %= +( (...connective...) >> condition_ )`,
against the filters accumulated so far. -/
def dslFilterStep (acc : List DslFilter) (s : List Char) : PR DslFilter :=
  match dslConn acc s with
  | none => .fail
  | some (op, s1) =>
    match dslCondition s1 with
    | .ok c s2 => .ok ⟨op, c⟩ s2
    | .fail => .fail
    | .err r => .err r

/-- The plus repetition of `filters_`: iterate `dslFilterStep`, appending
each parsed filter to the rule's attribute (which the semantic gates
inspect); a failing iteration restores its position and ends the
repetition, which must have produced at least one filter. -/
def dslFiltersLoop : Nat → List DslFilter → List Char → PR (List DslFilter)
  | 0, _, _ => .fail
  | fuel+1, acc, s =>
    match dslFilterStep acc s with
    | .err r => .err r
    | .fail => if acc.isEmpty then .fail else .ok acc s
    | .ok f s1 => dslFiltersLoop fuel (acc ++ [f]) s1

/-- The rule `filters_`, starting from an empty attribute. -/
def dslFilters (fuel : Nat) (s : List Char) : PR (List DslFilter) :=
  dslFiltersLoop fuel [] s

/-- The repetition `*( ';' >> property_ )` of the `print_` list
`property_ % ';'`. -/
def dslPrintLoop : Nat → List String → List Char → Option (List String × List Char)
  | 0, _, _ => none
  | fuel+1, acc, s =>
    match parseLit ';' s with
    | some s1 =>
      match dslProperty s1 with
      | some (p, s2) => dslPrintLoop fuel (acc ++ [p]) s2
      | none => some (acc, s)
    | none => some (acc, s)

/-- The rule `print_ = no_case["print"] >> property_ % ';'`. -/
def dslPrint (fuel : Nat) (s : List Char) : PR DslCommand :=
  match kwTok (chars "print") s with
  | some s1 =>
    match dslProperty s1 with
    | some (p, s2) =>
      match dslPrintLoop fuel [p] s2 with
      | some (ps, s3) => .ok (.cprint ps) s3
      | none => .fail
    | none => .fail
  | none => .fail

/-- One assignment `property_ >> '=' >> value_` of the `set_` list. -/
def dslAssign (s : List Char) : PR DslAssignment :=
  match dslProperty s with
  | some (p, s1) =>
    match parseLit '=' s1 with
    | some s2 =>
      match dslValueRule s2 with
      | .ok v r => .ok (p, v) r
      | .fail => .fail
      | .err r => .err r
    | none => .fail
  | none => .fail

/-- The repetition `*( ',' >> (property_ >> '=' >> value_) )` of the
`set_` list. -/
def dslSetLoop : Nat → List DslAssignment → List Char → PR (List DslAssignment)
  | 0, _, _ => .fail
  | fuel+1, acc, s =>
    match parseLit ',' s with
    | some s1 =>
      match dslAssign s1 with
      | .ok a s2 => dslSetLoop fuel (acc ++ [a]) s2
      | .fail => .ok acc s
      | .err r => .err r
    | none => .ok acc s

/-- The rule `set_ = no_case["set"] >> (property_ >> '=' >> value_) % ','`. -/
def dslSet (fuel : Nat) (s : List Char) : PR DslCommand :=
  match kwTok (chars "set") s with
  | some s1 =>
    match dslAssign s1 with
    | .ok a s2 =>
      match dslSetLoop fuel [a] s2 with
      | .ok as s3 => .ok (.cset as) s3
      | .fail => .fail
      | .err r => .err r
    | .fail => .fail
    | .err r => .err r
  | none => .fail

/-- The rule `command_ = print_ | set_`. -/
def dslCommandRule (fuel : Nat) (s : List Char) : PR DslCommand :=
  match dslPrint fuel s with
  | .ok c r => .ok c r
  | .err r => .err r
  | .fail => dslSet fuel s

/-- The entry rule `expression_ = filters_ >> command_`. -/
def dslExpression (fuel : Nat) (s : List Char) : PR DslStatement :=
  match dslFilters fuel s with
  | .ok fl s1 =>
    match dslCommandRule fuel s1 with
    | .ok c s2 => .ok ⟨fl, c⟩ s2
    | .fail => .fail
    | .err r => .err r
  | .fail => .fail
  | .err r => .err r

/-- The `phrase_parse` call of the DSL driver: run `expression_` and
post-skip trailing whitespace on success; an `expectation_failure`
propagates out unchanged. -/
def dslParse (fuel : Nat) (s : List Char) : PR DslStatement :=
  match dslExpression fuel s with
  | .ok st r => .ok st (skipWs r)
  | .fail => .fail
  | .err r => .err r

/-- Every `value` held by a command: the assigned values of a `set`
command, nothing for a `print` command. -/
def commandValues : DslCommand → List DslValue
  | .cset as => as.map Prod.snd
  | .cprint _ => []

/-- Every `value` reachable in a parsed statement: the value of each
filter's condition and the value of each `set` assignment. -/
def statementValues (st : DslStatement) : List DslValue :=
  st.filters_.map (fun f => f.condition_.value_) ++ commandValues st.command_

/-! ## SELECT AST (`basic_sql_select2.cpp`) -/

/-- The enum `basic_op { op_eq, op_neq }`. -/
inductive BasicOp where
  | op_eq
  | op_neq
deriving DecidableEq

/-- The variant `basic_value = boost::variant<null, int, std::string>`. -/
inductive BasicValue where
  | bnull
  | bint (i : Int)
  | bstring (s : String)
deriving DecidableEq

/-- The struct `basic_condition { field_, op_, value_ }`. -/
structure BasicCondition where
  field_ : String
  op_ : BasicOp
  value_ : BasicValue
deriving DecidableEq

/-- The struct `basic_select { columns_, table_, conditions_ }`;
`conditions_` is the `boost::optional<basic_conditions>` filled only when
the optional `conditions_` rule matched. -/
structure BasicSelect where
  columns_ : List String
  table_ : String
  conditions_ : Option (List BasicCondition)
deriving DecidableEq

/-! ## SELECT grammar (`basic_select_grammar`) -/

/-- The rule `ident_ = lexeme[ alpha >> *alnum ]`: one pre-skip, then a
letter and trailing alphanumerics with no internal skipping. -/
def selIdent (s : List Char) : Option (String × List Char) :=
  match skipWs s with
  | c :: rs =>
    if isAlphaA c then
      some (String.mk (c :: rs.takeWhile isAlnumA), rs.dropWhile isAlnumA)
    else none
  | [] => none

/-- The rule `strlit_ = lexeme["'" >> *~char_("'") >> "'"]`: no escape
character and no expectation point, so a missing closing quote is an
ordinary backtrackable failure. -/
def selStrlit (s : List Char) : Option (String × List Char) :=
  match skipWs s with
  | c :: rs =>
    if c = qc then
      match rs.dropWhile (fun x => !(x = qc)) with
      | c2 :: r2 =>
        if c2 = qc then some (String.mk (rs.takeWhile (fun x => !(x = qc))), r2)
        else none
      | [] => none
    else none
  | [] => none

/-- The rule `nulllit_ = no_case["null" >> attr(null())]`. -/
def selNulllit (s : List Char) : Option (BasicValue × List Char) :=
  match kwTok (chars "null") s with
  | some r => some (.bnull, r)
  | none => none

/-- The rule `op_ = no_case[op_token]` with
`op_token: "==" -> op_eq, "!=" -> op_neq`. -/
def selOp (s : List Char) : Option (BasicOp × List Char) :=
  match skipWs s with
  | '=' :: '=' :: r => some (.op_eq, r)
  | '!' :: '=' :: r => some (.op_neq, r)
  | _ => none

/-- The rule `value_ = int_ | strlit_ | nulllit_`. -/
def selValue (s : List Char) : Option (BasicValue × List Char) :=
  match intTok s with
  | some (i, r) => some (.bint i, r)
  | none =>
    match selStrlit s with
    | some (str, r) => some (.bstring str, r)
    | none => selNulllit s

/-- The rule `condition_ = field_ >> op_ >> value_` with
`field_ = ident_`. -/
def selCondition (s : List Char) : Option (BasicCondition × List Char) :=
  match selIdent s with
  | some (f, s1) =>
    match selOp s1 with
    | some (o, s2) =>
      match selValue s2 with
      | some (v, s3) => some (⟨f, o, v⟩, s3)
      | none => none
    | none => none
  | none => none

/-- The repetition `*( ',' >> ident_ )` of the column list
`ident_ % ','`. -/
def selIdentLoop : Nat → List String → List Char → Option (List String × List Char)
  | 0, _, _ => none
  | fuel+1, acc, s =>
    match parseLit ',' s with
    | some s1 =>
      match selIdent s1 with
      | some (i, s2) => selIdentLoop fuel (acc ++ [i]) s2
      | none => some (acc, s)
    | none => some (acc, s)

/-- The rule `columns_ = no_case["select"] >> (ident_ % ',')`. -/
def selColumns (fuel : Nat) (s : List Char) : Option (List String × List Char) :=
  match kwTok (chars "select") s with
  | some s1 =>
    match selIdent s1 with
    | some (i, s2) => selIdentLoop fuel [i] s2
    | none => none
  | none => none

/-- The rule `table_ = no_case["from"] >> ident_`. -/
def selTable (s : List Char) : Option (String × List Char) :=
  match kwTok (chars "from") s with
  | some s1 => selIdent s1
  | none => none

/-- The repetition `*( no_case["and"] >> condition_ )` of the condition
list `condition_ % no_case["and"]`. -/
def selCondLoop : Nat → List BasicCondition → List Char → Option (List BasicCondition × List Char)
  | 0, _, _ => none
  | fuel+1, acc, s =>
    match kwTok (chars "and") s with
    | some s1 =>
      match selCondition s1 with
      | some (c, s2) => selCondLoop fuel (acc ++ [c]) s2
      | none => some (acc, s)
    | none => some (acc, s)

/-- The rule
`conditions_ = no_case["where"] >> (condition_ % no_case["and"])`: the
keyword followed by at least one condition. -/
def selConditions (fuel : Nat) (s : List Char) : Option (List BasicCondition × List Char) :=
  match kwTok (chars "where") s with
  | some s1 =>
    match selCondition s1 with
    | some (c, s2) => selCondLoop fuel [c] s2
    | none => none
  | none => none

/-- The entry rule
`expression_ = columns_ >> table_ >> -conditions_ >> ';'`; the optional
yields `none` (and restores the position) when `conditions_` fails. -/
def selExpression (fuel : Nat) (s : List Char) : Option (BasicSelect × List Char) :=
  match selColumns fuel s with
  | some (cols, s1) =>
    match selTable s1 with
    | some (tbl, s2) =>
      let oc := match selConditions fuel s2 with
                | some (l, s3) => (some l, s3)
                | none => (none, s2)
      match parseLit ';' oc.2 with
      | some s4 => some (⟨cols, tbl, oc.1⟩, s4)
      | none => none
    | none => none
  | none => none

/-- The `phrase_parse` call of the SELECT driver: run `expression_` and
post-skip trailing whitespace on success. -/
def selParse (fuel : Nat) (s : List Char) : Option (BasicSelect × List Char) :=
  (selExpression fuel s).map (fun p => (p.1, skipWs p.2))

/-! ## Claim theorems -/

/-- C1: for the arithmetic calculator (parse then evaluate),
same-precedence operators fold left-to-right (`"8-3-2"` evaluates to
`3`, i.e. `(8-3)-2`), `*` and `/` bind tighter than `+` and `-`
(`"2+3*4"` evaluates to `14`), and the unary sign applies recursively
(`"-(-(5))"` evaluates to `5`). -/
theorem calc_concrete_results :
    runCalcAst 32 (chars "8-3-2") = some (.ok 3) ∧
    runCalcAst 32 (chars "2+3*4") = some (.ok 14) ∧
    runCalcAst 32 (chars "-(-(5))") = some (.ok 5) :=
  ⟨by decide, by decide, by decide⟩

/-- C3: the input `"4/0"` parses successfully (consuming the whole
line), and evaluating the resulting AST reaches the unguarded division
with a zero divisor, reported as the distinct runtime error
`divByZero` — in particular the result is never a coerced or wrapped
integer value. -/
theorem calc_div_by_zero_runtime_error :
    (astPhraseParse 32 (chars "4/0")).isSome = true ∧
    runCalcAst 32 (chars "4/0") = some (.error .divByZero) ∧
    ∀ v : Int, runCalcAst 32 (chars "4/0") ≠ some (.ok v) := by
  refine ⟨by decide, by decide, ?_⟩
  intro v h
  rw [show runCalcAst 32 (chars "4/0") = some (.error .divByZero) from by decide] at h
  simp at h

/-- The DSL line of C6,
`where currency like 'GBP|USD' set logging = 1, logfile = 'myfile'`. -/
def c6input : List Char :=
  chars "where currency like " ++ qc :: chars "GBP|USD" ++ qc ::
  chars " set logging = 1, logfile = " ++ qc :: chars "myfile" ++ [qc]

/-- C6: the line `c6input` parses successfully, consuming everything,
to a statement with exactly one filter whose connective is `logicFirst`,
whose condition is not negated, has property `currency` and value
`Regex("GBP|USD")`, and whose command is a `set` command with exactly
two assignments. -/
theorem dsl_concrete_statement :
    dslParse 32 c6input =
      .ok ⟨[⟨.logicFirst, ⟨false, "currency", .vregex ⟨"GBP|USD"⟩⟩⟩],
           .cset [("logging", .vdouble 1), ("logfile", .vstring "myfile")]⟩ [] := by
  decide

/-- C7: whenever the synthesized-attribute grammar succeeds but consumes
only a strict prefix of the line, the driver reports failure carrying
exactly the unconsumed suffix; in particular `"1+2 garbage"` is reported
as a failure with remainder `"garbage"`. -/
theorem calc_driver_trailing_input :
    (∀ fuel line v rest, sPhraseParse fuel line = some (v, rest) → rest ≠ [] →
      calcDriver fuel line = .failure rest) ∧
    calcDriver 32 (chars "1+2 garbage") = .failure (chars "garbage") := by
  constructor
  · intro fuel line v rest h hne
    cases rest with
    | nil => exact absurd rfl hne
    | cons a t => simp [calcDriver, h]
  · decide

/-- Witness for C7: on `"1+2 garbage"` the grammar succeeds with value
`3` leaving `"garbage"`, the remainder is nonempty, and the theorem
instantiated there yields the driver's failure report. -/
theorem calc_driver_trailing_input_witness :
    sPhraseParse 32 (chars "1+2 garbage") = some (.ok 3, chars "garbage") ∧
    chars "garbage" ≠ [] ∧
    calcDriver 32 (chars "1+2 garbage") = .failure (chars "garbage") :=
  ⟨by decide, by decide,
   calc_driver_trailing_input.1 32 (chars "1+2 garbage") (.ok 3) (chars "garbage")
     (by decide) (by decide)⟩

/-- Helper for C5: a successful run of the separator loop of the
condition list never shrinks the accumulator, so a nonempty start stays
nonempty. -/
theorem selCondLoop_nonempty :
    ∀ fuel acc s l r, selCondLoop fuel acc s = some (l, r) → acc ≠ [] → l ≠ [] := by
  intro fuel
  induction fuel with
  | zero => intro acc s l r h; simp [selCondLoop] at h
  | succ n ih =>
    intro acc s l r h hne
    rw [selCondLoop] at h
    split at h
    · split at h
      · exact ih _ _ l r h (by simp)
      · simp at h; exact h.1 ▸ hne
    · simp at h; exact h.1 ▸ hne

/-- Helper for C5: when the `conditions_` rule succeeds, the produced
list is nonempty and the `where` keyword was present at its start. -/
theorem selConditions_shape :
    ∀ fuel s l r, selConditions fuel s = some (l, r) →
      l ≠ [] ∧ (kwMatch (chars "where") (skipWs s)).isSome = true := by
  intro fuel s l r h
  rw [selConditions] at h
  split at h
  case h_2 => simp at h
  case h_1 s1 hkw =>
    refine ⟨?_, by simp [kwTok] at hkw; simp [hkw]⟩
    split at h
    · exact selCondLoop_nonempty fuel _ _ l r h (by simp)
    · simp at h

/-- C5: for every successfully parsed SELECT statement the `conditions_`
field, when present, is a nonempty list (`Some([])` is not producible:
the grammar demands at least one condition after the `WHERE` keyword,
and a successful `conditions_` rule implies the keyword was present);
and `"SELECT a FROM t;"` parses to columns `["a"]`, table `"t"` and
`conditions_ = none`. -/
theorem sel_conditions_none_iff :
    (∀ fuel s sel r, selParse fuel s = some (sel, r) →
       ∀ l, sel.conditions_ = some l → l ≠ []) ∧
    (∀ fuel s l r, selConditions fuel s = some (l, r) →
       l ≠ [] ∧ (kwMatch (chars "where") (skipWs s)).isSome = true) ∧
    selParse 32 (chars "SELECT a FROM t;") = some (⟨["a"], "t", none⟩, []) := by
  refine ⟨?_, selConditions_shape, by decide⟩
  intro fuel s sel r h l hl
  simp only [selParse, Option.map_eq_some'] at h
  obtain ⟨⟨sel0, r0⟩, h0, heq⟩ := h
  have hsel : sel0 = sel := congrArg Prod.fst heq
  subst hsel
  rw [selExpression] at h0
  split at h0
  · split at h0
    · split at h0
      · rename_i lc s3 hcsome
        simp only [] at h0
        split at h0
        · simp only [Option.some.injEq, Prod.mk.injEq] at h0
          rw [← h0.1] at hl
          simp at hl
          exact hl ▸ (selConditions_shape fuel _ lc s3 hcsome).1
        · simp at h0
      · simp only [] at h0
        split at h0
        · simp only [Option.some.injEq, Prod.mk.injEq] at h0
          rw [← h0.1] at hl
          simp at hl
        · simp at h0
    · simp at h0
  · simp at h0

/-- The SELECT line `SELECT a, b FROM t WHERE a == 1 AND b != 'x';`,
used to instantiate the C5 invariant on a parse that does carry a
`WHERE` clause. -/
def c5winput : List Char :=
  chars "SELECT a, b FROM t WHERE a == 1 AND b != " ++ qc :: chars "x" ++
  qc :: chars ";"

/-- Witness for C5: instantiating the invariant at `c5winput`, whose
parse succeeds with two conditions, and the `conditions_` rule at
`" WHERE a == 1"`. -/
theorem sel_conditions_none_iff_witness :
    ([⟨"a", .op_eq, .bint 1⟩, ⟨"b", .op_neq, .bstring "x"⟩] : List BasicCondition) ≠ [] ∧
    (([⟨"a", .op_eq, .bint 1⟩] : List BasicCondition) ≠ [] ∧
     (kwMatch (chars "where") (skipWs (chars " WHERE a == 1"))).isSome = true) :=
  ⟨sel_conditions_none_iff.1 32 c5winput
     ⟨["a", "b"], "t", some [⟨"a", .op_eq, .bint 1⟩, ⟨"b", .op_neq, .bstring "x"⟩]⟩ []
     (by decide) _ rfl,
   sel_conditions_none_iff.2.1 32 (chars " WHERE a == 1")
     [⟨"a", .op_eq, .bint 1⟩] [] (by decide)⟩

/-- Shape of a well-connected filter list: the head (when the list is
nonempty) carries `logicFirst` and every later element carries
`logicAnd` or `logicOr`. -/
def connInv : List DslFilter → Prop
  | [] => True
  | f :: t => f.op_ = .logicFirst ∧ ∀ g ∈ t, g.op_ = .logicAnd ∨ g.op_ = .logicOr

/-- Helper for C2: the `or` connective alternative only fires on a
nonempty accumulator and only produces `logicOr`. -/
theorem dslConnOr_shape : ∀ acc s op r, dslConnOr acc s = some (op, r) →
    op = .logicOr ∧ acc ≠ [] := by
  intro acc s op r h
  rw [dslConnOr] at h
  split at h
  · split at h
    · simp at h
      refine ⟨h.1.symm, ?_⟩
      rename_i hlen
      exact List.ne_nil_of_length_pos hlen
    · simp at h
  · simp at h

/-- Helper for C2: the `and`/`or` connective alternatives only fire on a
nonempty accumulator and only produce `logicAnd` or `logicOr`. -/
theorem dslConnAndOr_shape : ∀ acc s op r, dslConnAndOr acc s = some (op, r) →
    (op = .logicAnd ∨ op = .logicOr) ∧ acc ≠ [] := by
  intro acc s op r h
  rw [dslConnAndOr] at h
  split at h
  · split at h
    · simp at h
      refine ⟨Or.inl h.1.symm, ?_⟩
      rename_i hlen
      exact List.ne_nil_of_length_pos hlen
    · have := dslConnOr_shape acc s op r h
      exact ⟨Or.inr this.1, this.2⟩
  · have := dslConnOr_shape acc s op r h
    exact ⟨Or.inr this.1, this.2⟩

/-- Helper for C2: the semantic gates force `logicFirst` exactly on an
empty accumulator. -/
theorem dslConn_shape : ∀ acc s op r, dslConn acc s = some (op, r) →
    (acc = [] → op = .logicFirst) ∧ (acc ≠ [] → op = .logicAnd ∨ op = .logicOr) := by
  intro acc s op r h
  rw [dslConn] at h
  split at h
  · split at h
    · simp at h
      rename_i hlen
      exact ⟨fun _ => h.1.symm,
             fun hne => absurd (List.length_eq_zero.mp hlen) hne⟩
    · have := dslConnAndOr_shape acc s op r h
      exact ⟨fun he => absurd he this.2, fun _ => this.1⟩
  · have := dslConnAndOr_shape acc s op r h
    exact ⟨fun he => absurd he this.2, fun _ => this.1⟩

/-- Helper for C2: a successfully parsed filter carries `logicFirst`
exactly when the accumulator was empty. -/
theorem dslFilterStep_shape : ∀ acc s f r, dslFilterStep acc s = .ok f r →
    (acc = [] → f.op_ = .logicFirst) ∧ (acc ≠ [] → f.op_ = .logicAnd ∨ f.op_ = .logicOr) := by
  intro acc s f r h
  rw [dslFilterStep] at h
  split at h
  · simp at h
  · rename_i op s1 hconn
    split at h
    · simp at h
      have := dslConn_shape acc s op s1 hconn
      rw [← h.1]
      exact this
    · simp at h
    · simp at h

/-- Helper for C2: appending a gate-approved filter preserves the
well-connected shape. -/
theorem connInv_append : ∀ acc f, connInv acc →
    (acc = [] → f.op_ = .logicFirst) → (acc ≠ [] → f.op_ = .logicAnd ∨ f.op_ = .logicOr) →
    connInv (acc ++ [f]) := by
  intro acc f hinv h1 h2
  cases acc with
  | nil => exact ⟨h1 rfl, by simp⟩
  | cons a t =>
    obtain ⟨ha, ht⟩ := hinv
    refine ⟨ha, ?_⟩
    intro g hg
    rcases (by simpa using hg : g ∈ t ∨ g = f) with hgt | hgf
    · exact ht g hgt
    · rw [hgf]
      exact h2 (by simp)

/-- Helper for C2: every successful run of the `filters_` repetition
preserves the well-connected shape, never shrinks the accumulator, and
produces a nonempty list when started empty. -/
theorem dslFiltersLoop_inv :
    ∀ fuel acc s l r, dslFiltersLoop fuel acc s = .ok l r → connInv acc →
      connInv l ∧ acc.length ≤ l.length ∧ (acc = [] → l ≠ []) := by
  intro fuel
  induction fuel with
  | zero => intro acc s l r h _; simp [dslFiltersLoop] at h
  | succ n ih =>
    intro acc s l r h hinv
    rw [dslFiltersLoop] at h
    split at h
    · simp at h
    · split at h
      · simp at h
      · simp at h
        refine ⟨h.1 ▸ hinv, h.1 ▸ le_rfl, fun he => ?_⟩
        rename_i hne
        simp [he] at hne
    · rename_i f s1 hstep
      have hsh := dslFilterStep_shape acc s f s1 hstep
      have := ih (acc ++ [f]) s1 l r h (connInv_append acc f hinv hsh.1 hsh.2)
      refine ⟨this.1, le_trans (by simp) this.2.1, fun he => ?_⟩
      intro hle
      have := this.2.1
      rw [hle] at this
      simp at this

/-- Helper for C2: the head of a case-insensitive keyword match
determines the head of the input. -/
theorem kwMatch_head : ∀ (k : Char) kt t r, kwMatch (k :: kt) t = some r →
    ∃ c ct, t = c :: ct ∧ lowerA c = k := by
  intro k kt t r h
  cases t with
  | nil => simp [kwMatch] at h
  | cons c ct =>
    refine ⟨c, ct, rfl, ?_⟩
    by_contra hne
    rw [kwMatch, if_neg hne] at h
    exact Option.noConfusion h

/-- Helper for C2: on an empty accumulator the `or` gate refuses. -/
theorem dslConnOr_nil : ∀ s, dslConnOr [] s = none := by
  intro s
  rw [dslConnOr]
  split
  · simp
  · rfl

/-- Helper for C2: on an empty accumulator the `and` and `or` gates
refuse. -/
theorem dslConnAndOr_nil : ∀ s, dslConnAndOr [] s = none := by
  intro s
  rw [dslConnAndOr]
  split
  · simp [dslConnOr_nil]
  · exact dslConnOr_nil s

/-- C2: every statement accepted by the DSL grammar has a nonempty
filter list whose first element carries `logicFirst` (produced by the
`where` keyword gate) and whose every later element carries `logicAnd`
or `logicOr`; and any input whose filter list begins with the keyword
`and` (or `or`) fails to parse, because the position-0 gate refuses a
non-`where` keyword. -/
theorem dsl_filters_connective_invariant :
    (∀ fuel s st r, dslParse fuel s = .ok st r →
       st.filters_ ≠ [] ∧ connInv st.filters_) ∧
    (∀ fuel s, ((kwMatch (chars "and") (skipWs s)).isSome = true ∨
                (kwMatch (chars "or") (skipWs s)).isSome = true) →
       ∀ st r, dslParse fuel s ≠ .ok st r) := by
  constructor
  · intro fuel s st r h
    rw [dslParse] at h
    split at h
    · rename_i st0 r0 hexp
      simp at h
      rw [dslExpression] at hexp
      split at hexp
      · rename_i fl s1 hfl
        split at hexp
        · simp at hexp
          have := dslFiltersLoop_inv fuel [] s fl s1 hfl trivial
          rw [← h.1, ← hexp.1]
          exact ⟨this.2.2 rfl, this.1⟩
        · exact PR.noConfusion hexp
        · exact PR.noConfusion hexp
      · exact PR.noConfusion hexp
      · exact PR.noConfusion hexp
    · exact PR.noConfusion h
    · exact PR.noConfusion h
  · intro fuel s H st r hcontra
    have hwnone : kwMatch (chars "where") (skipWs s) = none := by
      rcases H with h | h
      · obtain ⟨r0, hr⟩ := Option.isSome_iff_exists.mp h
        rw [show chars "and" = 'a' :: chars "nd" from rfl] at hr
        obtain ⟨c, ct, hct, hl⟩ := kwMatch_head _ _ _ _ hr
        rw [show chars "where" = 'w' :: chars "here" from rfl, hct]
        simp [kwMatch, hl]
      · obtain ⟨r0, hr⟩ := Option.isSome_iff_exists.mp h
        rw [show chars "or" = 'o' :: chars "r" from rfl] at hr
        obtain ⟨c, ct, hct, hl⟩ := kwMatch_head _ _ _ _ hr
        rw [show chars "where" = 'w' :: chars "here" from rfl, hct]
        simp [kwMatch, hl]
    have hconn : dslConn [] s = none := by
      rw [dslConn, show kwTok (chars "where") s = none from by rw [kwTok, hwnone]]
      simp [dslConnAndOr_nil]
    have hstep : dslFilterStep [] s = .fail := by
      rw [dslFilterStep, hconn]
    have hfl : dslFilters fuel s = .fail := by
      cases fuel with
      | zero => rfl
      | succ n =>
        rw [dslFilters]
        simp only [dslFiltersLoop, hstep]
        rfl
    rw [dslParse, dslExpression, hfl] at hcontra
    exact PR.noConfusion hcontra

/-- The DSL line `where a = 1 and b = 2 print c`, whose parse exercises
a two-filter list. -/
def c2winput : List Char := chars "where a = 1 and b = 2 print c"

/-- Witness for C2: the invariant instantiated on the parse of
`c2winput` (two filters, `logicFirst` then `logicAnd`), and the
rejection instantiated on the line `and x = 1 print y`. -/
theorem dsl_filters_connective_invariant_witness :
    (([⟨.logicFirst, ⟨false, "a", .vdouble 1⟩⟩, ⟨.logicAnd, ⟨false, "b", .vdouble 2⟩⟩]
        : List DslFilter) ≠ [] ∧
     connInv [⟨.logicFirst, ⟨false, "a", .vdouble 1⟩⟩, ⟨.logicAnd, ⟨false, "b", .vdouble 2⟩⟩]) ∧
    dslParse 32 (chars "and x = 1 print y") ≠
      .ok ⟨[⟨.logicFirst, ⟨false, "x", .vdouble 1⟩⟩], .cprint ["y"]⟩ [] :=
  ⟨by
    have := dsl_filters_connective_invariant.1 32 c2winput
      ⟨[⟨.logicFirst, ⟨false, "a", .vdouble 1⟩⟩, ⟨.logicAnd, ⟨false, "b", .vdouble 2⟩⟩],
       .cprint ["c"]⟩ [] (by decide)
    exact this,
   dsl_filters_connective_invariant.2 32 (chars "and x = 1 print y")
     (Or.inl (by decide)) _ _⟩

/-- Helper for C4: when the input holds no quote at all, the literal
body consumes everything, reaching the end of the line. -/
theorem strBody_noquote : ∀ n rest, rest.length ≤ n → (∀ c ∈ rest, c ≠ qc) →
    (strBody rest).2 = [] := by
  intro n
  induction n with
  | zero =>
    intro rest hlen _
    rw [List.length_eq_zero.mp (Nat.le_zero.mp hlen)]
    rfl
  | succ n ih =>
    intro rest hlen hnc
    cases rest with
    | nil => rfl
    | cons c rs =>
      by_cases hbs : c = bslc
      · subst hbs
        cases rs with
        | nil => rfl
        | cons c2 rs2 =>
          simp [strBody]
          exact ih rs2 (by simp at hlen; omega) (fun d hd => hnc d (by simp [hd]))
      · have hq : c ≠ qc := hnc c (by simp)
        rw [strBody.eq_def]
        simp [hbs, hq]
        exact ih rs (by simp at hlen; omega) (fun d hd => hnc d (by simp [hd]))

/-- Helper for C4: a string literal whose opening quote is present but
whose body reaches the end of the input without a closing quote is an
expectation failure carrying the end position. -/
theorem dslStrlit_unterminated : ∀ s rest, skipWs s = qc :: rest →
    (strBody rest).2 = [] → dslStrlit s = .err [] := by
  intro s rest hskip hbody
  rw [dslStrlit, hskip]
  simp [hbody]

/-- C4: a DSL line whose string literal is opened and never closed (no
later quote on the line) is rejected with a terminal parse error `err`
carrying the position reached (the end of the line); the expectation
failure propagates through condition, filters and statement without any
enclosing alternative being retried. -/
theorem dsl_unterminated_strlit_expectation :
    ∀ fuel rest, (∀ c ∈ rest, c ≠ qc) →
      dslParse (fuel + 1) (chars "where x like " ++ qc :: rest) = .err [] := by
  intro fuel rest hnc
  have hb : (strBody rest).2 = [] := strBody_noquote rest.length rest le_rfl hnc
  have h1 : dslStrlit (' ' :: qc :: rest) = .err [] :=
    dslStrlit_unterminated _ rest rfl hb
  have h2 : dslRegex (' ' :: qc :: rest) = .err [] := by
    rw [dslRegex, h1]
  have h3 : dslCondition (' ' :: 'x' :: ' ' :: 'l' :: 'i' :: 'k' :: 'e' :: ' ' :: qc :: rest)
      = .err [] := by
    rw [dslCondition,
        show kwTok (chars "not")
          (' ' :: 'x' :: ' ' :: 'l' :: 'i' :: 'k' :: 'e' :: ' ' :: qc :: rest) = none from rfl,
        dslCondTail]
    simp [show dslProperty (' ' :: 'x' :: ' ' :: 'l' :: 'i' :: 'k' :: 'e' :: ' ' :: qc :: rest)
            = some ("x", ' ' :: 'l' :: 'i' :: 'k' :: 'e' :: ' ' :: qc :: rest) from rfl,
          show kwTok (chars "like") (' ' :: 'l' :: 'i' :: 'k' :: 'e' :: ' ' :: qc :: rest)
            = some (' ' :: qc :: rest) from rfl, h2]
  have h4 : dslFilterStep [] (chars "where x like " ++ qc :: rest) = .err [] := by
    rw [dslFilterStep]
    simp [show dslConn [] (chars "where x like " ++ qc :: rest)
            = some (.logicFirst,
                ' ' :: 'x' :: ' ' :: 'l' :: 'i' :: 'k' :: 'e' :: ' ' :: qc :: rest) from rfl, h3]
  have h5 : dslFilters (fuel + 1) (chars "where x like " ++ qc :: rest) = .err [] := by
    rw [dslFilters]
    simp only [dslFiltersLoop, h4]
  simp [dslParse, dslExpression, h5]

/-- Witness for C4: the line `where x like 'abc set y = 1` (the quote
before `abc` is never closed) is rejected with an expectation failure at
the end of the line. -/
theorem dsl_unterminated_strlit_expectation_witness :
    (∀ c ∈ chars "abc set y = 1", c ≠ qc) ∧
    dslParse (31 + 1) (chars "where x like " ++ qc :: chars "abc set y = 1") = .err [] :=
  ⟨by decide, dsl_unterminated_strlit_expectation 31 (chars "abc set y = 1") (by decide)⟩

/-- Helper for C10: whenever the `double_` alternative of the `value_`
rule fails, the `int_` alternative fails as well, since both demand at
least one digit after the optional sign. -/
theorem doubleTok_none_intTok_none : ∀ s, doubleTok s = none → intTok s = none := by
  intro s h
  rw [intTok]
  rw [doubleTok] at h
  by_cases hds : ((signSplit (skipWs s)).2.takeWhile isDigitA).isEmpty
  · simp only [hds, if_pos, if_true]
  · exfalso
    rw [if_neg hds] at h
    repeat' split at h
    all_goals simp at h

/-- Helper for C10: a successful `value_` parse never yields the `int`
alternative, since `double_` is tried first and fails only when `int_`
fails too. -/
theorem dslValueRule_not_int : ∀ s v r, dslValueRule s = .ok v r → v.isInt = false := by
  intro s v r h
  rw [dslValueRule] at h
  split at h
  · simp at h
    rw [← h.1]
    rfl
  · rename_i hdnone
    split at h
    · exfalso
      rename_i p hint
      rw [doubleTok_none_intTok_none s hdnone] at hint
      exact Option.noConfusion hint
    · split at h
      · simp at h
        rw [← h.1]
        rfl
      · exact PR.noConfusion h
      · exact PR.noConfusion h

/-- Helper for C10: the `regex_` rule only yields regex values. -/
theorem dslRegex_shape : ∀ s v r, dslRegex s = .ok v r → v.isInt = false := by
  intro s v r h
  rw [dslRegex] at h
  split at h
  · simp at h
    rw [← h.1]
    rfl
  · exact PR.noConfusion h
  · exact PR.noConfusion h

/-- Helper for C10: the value of a successfully parsed condition tail is
never the `int` alternative. -/
theorem dslCondTail_not_int : ∀ neg s c r, dslCondTail neg s = .ok c r →
    c.value_.isInt = false := by
  intro neg s c r h
  rw [dslCondTail] at h
  split at h
  · exact PR.noConfusion h
  · split at h
    · split at h
      · rename_i v r2 hreg
        simp at h
        rw [← h.1]
        exact dslRegex_shape _ _ _ hreg
      · exact PR.noConfusion h
      · split at h
        · split at h
          · rename_i v r2 hval
            simp at h
            rw [← h.1]
            exact dslValueRule_not_int _ _ _ hval
          · exact PR.noConfusion h
          · exact PR.noConfusion h
        · exact PR.noConfusion h
    · split at h
      · split at h
        · rename_i v r2 hval
          simp at h
          rw [← h.1]
          exact dslValueRule_not_int _ _ _ hval
        · exact PR.noConfusion h
        · exact PR.noConfusion h
      · exact PR.noConfusion h

/-- Helper for C10: the value of a successfully parsed condition is
never the `int` alternative. -/
theorem dslCondition_not_int : ∀ s c r, dslCondition s = .ok c r →
    c.value_.isInt = false := by
  intro s c r h
  rw [dslCondition] at h
  split at h
  · exact dslCondTail_not_int _ _ _ _ h
  · exact dslCondTail_not_int _ _ _ _ h

/-- Helper for C10: one filter iteration only produces int-free
condition values. -/
theorem dslFilterStep_not_int : ∀ acc s f r, dslFilterStep acc s = .ok f r →
    f.condition_.value_.isInt = false := by
  intro acc s f r h
  rw [dslFilterStep] at h
  split at h
  · exact PR.noConfusion h
  · split at h
    · rename_i c s2 hcond
      simp at h
      rw [← h.1]
      exact dslCondition_not_int _ _ _ hcond
    · exact PR.noConfusion h
    · exact PR.noConfusion h

/-- Helper for C10: the filters repetition preserves int-freeness of all
accumulated condition values. -/
theorem dslFiltersLoop_not_int : ∀ fuel acc s l r, dslFiltersLoop fuel acc s = .ok l r →
    (∀ f ∈ acc, f.condition_.value_.isInt = false) →
    ∀ f ∈ l, f.condition_.value_.isInt = false := by
  intro fuel
  induction fuel with
  | zero => intro acc s l r h _; simp [dslFiltersLoop] at h
  | succ n ih =>
    intro acc s l r h hacc
    rw [dslFiltersLoop] at h
    split at h
    · exact PR.noConfusion h
    · split at h
      · exact PR.noConfusion h
      · simp at h
        exact h.1 ▸ hacc
    · rename_i f0 s1 hstep
      refine ih _ _ l r h ?_
      intro f hf
      rcases (by simpa using hf : f ∈ acc ∨ f = f0) with hin | heq
      · exact hacc f hin
      · exact heq ▸ dslFilterStep_not_int _ _ _ _ hstep

/-- Helper for C10: one `set` assignment only carries an int-free
value. -/
theorem dslAssign_not_int : ∀ s a r, dslAssign s = .ok a r → a.2.isInt = false := by
  intro s a r h
  rw [dslAssign] at h
  split at h
  · split at h
    · split at h
      · rename_i v r2 hval
        simp at h
        rw [← h.1]
        exact dslValueRule_not_int _ _ _ hval
      · exact PR.noConfusion h
      · exact PR.noConfusion h
    · exact PR.noConfusion h
  · exact PR.noConfusion h

/-- Helper for C10: the `set` list repetition preserves int-freeness of
all accumulated assignment values. -/
theorem dslSetLoop_not_int : ∀ fuel acc s l r, dslSetLoop fuel acc s = .ok l r →
    (∀ a ∈ acc, a.2.isInt = false) → ∀ a ∈ l, a.2.isInt = false := by
  intro fuel
  induction fuel with
  | zero => intro acc s l r h _; simp [dslSetLoop] at h
  | succ n ih =>
    intro acc s l r h hacc
    rw [dslSetLoop] at h
    split at h
    · split at h
      · rename_i a0 s2 hassign
        refine ih _ _ l r h ?_
        intro a ha
        rcases (by simpa using ha : a ∈ acc ∨ a = a0) with hin | heq
        · exact hacc a hin
        · exact heq ▸ dslAssign_not_int _ _ _ hassign
      · simp at h
        exact h.1 ▸ hacc
      · exact PR.noConfusion h
    · simp at h
      exact h.1 ▸ hacc

/-- Helper for C10: every value of a successfully parsed command is
int-free (a `print` command holds no value at all). -/
theorem dslCommandRule_not_int : ∀ fuel s c r, dslCommandRule fuel s = .ok c r →
    ∀ v ∈ commandValues c, v.isInt = false := by
  intro fuel s c r h
  rw [dslCommandRule] at h
  split at h
  · rename_i c0 r0 hprint
    simp at h
    rw [dslPrint] at hprint
    repeat' split at hprint
    all_goals try exact PR.noConfusion hprint
    simp at hprint
    rw [← h.1, ← hprint.1]
    simp [commandValues]
  · exact PR.noConfusion h
  · rw [dslSet] at h
    split at h
    · split at h
      · rename_i a1 s2 hassign1
        split at h
        · rename_i as s3 hloop
          simp at h
          rw [← h.1]
          simp only [commandValues]
          intro v hv
          obtain ⟨a, ha, hva⟩ := List.mem_map.mp hv
          rw [← hva]
          refine dslSetLoop_not_int fuel _ _ _ _ hloop ?_ a ha
          intro a0 ha0
          have heq := List.mem_singleton.mp ha0
          exact heq ▸ dslAssign_not_int _ _ _ hassign1
        · exact PR.noConfusion h
        · exact PR.noConfusion h
      · exact PR.noConfusion h
      · exact PR.noConfusion h
    · exact PR.noConfusion h

/-- C10: the `double_` alternative of `value_` accepts every input the
`int_` alternative accepts (both demand digits after an optional sign),
and since `double_` is tried first, no value of any accepted DSL
statement — condition values and `set` assignment values alike — is ever
the `int` alternative of the `value` variant. -/
theorem dsl_value_never_int :
    (∀ s i r, intTok s = some (i, r) → (doubleTok s).isSome = true) ∧
    (∀ fuel s st r, dslParse fuel s = .ok st r →
       ∀ v ∈ statementValues st, v.isInt = false) := by
  constructor
  · intro s i r h
    cases hd : doubleTok s with
    | some p => rfl
    | none =>
      rw [doubleTok_none_intTok_none s hd] at h
      exact Option.noConfusion h
  · intro fuel s st r h v hv
    rw [dslParse] at h
    split at h
    · rename_i st0 r0 hexp
      simp at h
      rw [dslExpression] at hexp
      split at hexp
      · rename_i fl s1 hfl
        rw [dslFilters] at hfl
        split at hexp
        · rename_i c s2 hcmd
          simp at hexp
          rw [← h.1, ← hexp.1] at hv
          simp only [statementValues] at hv
          rcases List.mem_append.mp hv with hvf | hvc
          · obtain ⟨f, hf, hvf'⟩ := List.mem_map.mp hvf
            rw [← hvf']
            exact dslFiltersLoop_not_int fuel [] s fl s1 hfl (by simp) f hf
          · exact dslCommandRule_not_int fuel s1 c s2 hcmd v hvc
        · exact PR.noConfusion hexp
        · exact PR.noConfusion hexp
      · exact PR.noConfusion hexp
      · exact PR.noConfusion hexp
    · exact PR.noConfusion h
    · exact PR.noConfusion h

/-- Witness for C10: `int_` accepts `" 42"` so `double_` does too, and
the regex value of the parsed `c6input` statement is not the `int`
alternative. -/
theorem dsl_value_never_int_witness :
    (doubleTok (chars " 42")).isSome = true ∧
    DslValue.isInt (.vregex ⟨"GBP|USD"⟩) = false :=
  ⟨dsl_value_never_int.1 (chars " 42") 42 [] (by decide),
   dsl_value_never_int.2 32 c6input
     ⟨[⟨.logicFirst, ⟨false, "currency", .vregex ⟨"GBP|USD"⟩⟩⟩],
      .cset [("logging", .vdouble 1), ("logfile", .vstring "myfile")]⟩ [] (by decide)
     (.vregex ⟨"GBP|USD"⟩) (by decide)⟩

mutual
/-- Well-formedness of an arithmetic AST as the grammar produces it:
every sign is `'-'` or `'+'` and every operator is one of the four
arithmetic characters. -/
def wfOperand : CalcOperand → Bool
  | .num _ => true
  | .signedNumber sg x => (sg = '-' || sg = '+') && wfOperand x
  | .program f rest => wfOperand f && wfOps rest
/-- Well-formedness of an operation list: every operator is `'-'`,
`'+'`, `'*'` or `'/'` and every operand is well formed. -/
def wfOps : CalcOps → Bool
  | .nil => true
  | .cons c x rs => (c = '-' || c = '+' || c = '*' || c = '/') && wfOperand x && wfOps rs
end

/-- Helper for C8: the matched character of `char_(c)` is `c` itself. -/
theorem parseCharTok_fst : ∀ c s y r, parseCharTok c s = some (y, r) → y = c := by
  intro c s y r h
  rw [parseCharTok] at h
  split at h
  · split at h
    · simp at h
      exact h.1.symm
    · exact Option.noConfusion h
  · exact Option.noConfusion h

/-- Helper for C8: a repetition over a well-formed item with arithmetic
operator characters produces a well-formed operation list. -/
theorem starOps_wf :
    ∀ (item : List Char → Option (CalcOperand × List Char)) c1 c2,
      (∀ s x r, item s = some (x, r) → wfOperand x = true) →
      (c1 = '-' || c1 = '+' || c1 = '*' || c1 = '/') = true →
      (c2 = '-' || c2 = '+' || c2 = '*' || c2 = '/') = true →
      ∀ fuel s ops r, starOps item c1 c2 fuel s = some (ops, r) → wfOps ops = true := by
  intro item c1 c2 hitem hc1 hc2 fuel
  induction fuel with
  | zero => intro s ops r h; simp [starOps] at h
  | succ n ih =>
    intro s ops r h
    rw [starOps] at h
    split at h
    · rename_i x s1 hstep
      split at h
      · rename_i ops0 s2 hrec
        simp at h
        rw [← h.1, wfOps]
        have hx : wfOperand x = true := by
          rw [opStep] at hstep
          split at hstep
          · exact hitem _ _ _ hstep
          · exact Option.noConfusion hstep
        simp [hc1, hx, ih s1 ops0 s2 hrec]
      · exact Option.noConfusion h
    · split at h
      · rename_i x s1 hstep
        split at h
        · rename_i ops0 s2 hrec
          simp at h
          rw [← h.1, wfOps]
          have hx : wfOperand x = true := by
            rw [opStep] at hstep
            split at hstep
            · exact hitem _ _ _ hstep
            · exact Option.noConfusion hstep
          simp [hc2, hx, ih s1 ops0 s2 hrec]
        · exact Option.noConfusion h
      · simp at h
        rw [← h.1]
        rfl

/-- Helper for C8: the `term` rule over a well-formed factor produces a
well-formed operand. -/
theorem termOf_wf :
    ∀ (factor : List Char → Option (CalcOperand × List Char)),
      (∀ s x r, factor s = some (x, r) → wfOperand x = true) →
      ∀ fuel s x r, termOf factor fuel s = some (x, r) → wfOperand x = true := by
  intro factor hf fuel s x r h
  rw [termOf] at h
  split at h
  · rename_i f s1 hfac
    split at h
    · rename_i ops s2 hstar
      simp at h
      rw [← h.1, wfOperand]
      simp [hf _ _ _ hfac,
            starOps_wf factor '*' '/' hf (by decide) (by decide) fuel s1 ops s2 hstar]
    · exact Option.noConfusion h
  · exact Option.noConfusion h

/-- Helper for C8: the `expression` rule over a well-formed factor
produces a well-formed operand. -/
theorem exprOf_wf :
    ∀ (factor : List Char → Option (CalcOperand × List Char)),
      (∀ s x r, factor s = some (x, r) → wfOperand x = true) →
      ∀ fuel s x r, exprOf factor fuel s = some (x, r) → wfOperand x = true := by
  intro factor hf fuel s x r h
  rw [exprOf] at h
  split at h
  · rename_i t s1 hterm
    split at h
    · rename_i ops s2 hstar
      simp at h
      rw [← h.1, wfOperand]
      simp [termOf_wf factor hf fuel s t s1 hterm,
            starOps_wf (termOf factor fuel) '+' '-' (termOf_wf factor hf fuel)
              (by decide) (by decide) fuel s1 ops s2 hstar]
    · exact Option.noConfusion h
  · exact Option.noConfusion h

/-- Helper for C8: every operand the `factor` rule produces is well
formed. -/
theorem astFactor_wf : ∀ fuel s x r, astFactor fuel s = some (x, r) →
    wfOperand x = true := by
  intro fuel
  induction fuel with
  | zero => intro s x r h; simp [astFactor] at h
  | succ n ih =>
    intro s x r h
    rw [astFactor] at h
    split at h
    · simp at h
      rw [← h.1]
      rfl
    · split at h
      · rename_i p hpar
        simp at h
        rw [parenOf] at hpar
        split at hpar
        · rename_i s1 hlp
          split at hpar
          · rename_i x0 s2 hexpr
            split at hpar
            · rename_i s3 hrp
              simp at hpar
              have h2 := hpar.trans h
              simp at h2
              rw [← h2.1]
              exact exprOf_wf (astFactor n) ih n _ _ _ hexpr
            · exact Option.noConfusion hpar
          · exact Option.noConfusion hpar
        · exact Option.noConfusion hpar
      · split at h
        · rename_i p hsign
          simp at h
          rw [signOf] at hsign
          split at hsign
          · rename_i sg s1 htok
            split at hsign
            · rename_i x0 s2 hfac
              simp at hsign
              have h2 := hsign.trans h
              simp at h2
              rw [← h2.1, wfOperand, parseCharTok_fst '-' s sg s1 htok]
              simp [ih _ _ _ hfac]
            · exact Option.noConfusion hsign
          · exact Option.noConfusion hsign
        · rw [signOf] at h
          split at h
          · rename_i sg s1 htok
            split at h
            · rename_i x0 s2 hfac
              simp at h
              rw [← h.1, wfOperand, parseCharTok_fst '+' s sg s1 htok]
              simp [ih _ _ _ hfac]
            · exact Option.noConfusion h
          · exact Option.noConfusion h

/-- Helper for C8: every operand a successful `phrase_parse` of the AST
grammar produces is well formed. -/
theorem astPhraseParse_wf : ∀ fuel s x r, astPhraseParse fuel s = some (x, r) →
    wfOperand x = true := by
  intro fuel s x r h
  simp only [astPhraseParse, Option.map_eq_some'] at h
  obtain ⟨⟨x0, r0⟩, h0, heq⟩ := h
  have : x0 = x := congrArg Prod.fst heq
  exact this ▸ exprOf_wf (astFactor fuel) (astFactor_wf fuel) fuel s x0 r0 h0

/-- An evaluation result that did not come out of a `BOOST_ASSERT(0)`
branch of `calc_program_eval`. -/
def notAssert (r : EvalRes) : Prop :=
  r ≠ .error .badSign ∧ r ≠ .error .badOp

/-- Helper for C8: with an arithmetic operator character, `applyOp`
never reaches its assertion branch. -/
theorem applyOp_no_assert : ∀ c a b, (c = '-' || c = '+' || c = '*' || c = '/') = true →
    notAssert (applyOp c a b) := by
  intro c a b hc
  simp at hc
  rw [applyOp]
  rcases hc with ((h | h) | h) | h <;> subst h <;> simp [notAssert]
  split <;> simp

/-- Helper for C8: evaluating a well-formed AST never returns the result
of an assertion branch — by strong induction on the size of the
term. -/
theorem eval_wf_no_assert : ∀ n : Nat,
    (∀ x : CalcOperand, sizeOf x ≤ n → wfOperand x = true → notAssert (evalOperand x)) ∧
    (∀ (st : Int) (ops : CalcOps), sizeOf ops ≤ n → wfOps ops = true →
       notAssert (evalRest st ops)) := by
  intro n
  induction n using Nat.strong_induction_on with
  | _ n ih =>
    constructor
    · intro x hsz hwf
      match x with
      | .num m => simp [evalOperand, notAssert]
      | .signedNumber sg y =>
        rw [wfOperand] at hwf
        simp at hwf
        have hy : sizeOf y < n := by
          simp at hsz
          omega
        have hna := (ih (sizeOf y) hy).1 y le_rfl hwf.2
        rw [evalOperand]
        split
        · rename_i e heval
          rw [heval] at hna
          exact hna
        · rcases hwf.1 with h | h <;> subst h
          · simp [notAssert]
          · simp [notAssert]
      | .program f rest =>
        rw [wfOperand] at hwf
        simp at hwf
        have hfr : sizeOf f < n ∧ sizeOf rest < n := by
          simp at hsz
          omega
        have hna := (ih (sizeOf f) hfr.1).1 f le_rfl hwf.1
        rw [evalOperand]
        split
        · rename_i e heval
          rw [heval] at hna
          exact hna
        · exact (ih (sizeOf rest) hfr.2).2 _ rest le_rfl hwf.2
    · intro st ops hsz hwf
      match ops with
      | .nil => simp [evalRest, notAssert]
      | .cons c y rs =>
        rw [wfOps] at hwf
        simp at hwf
        obtain ⟨⟨hc, hy⟩, hrs⟩ := hwf
        have hyr : sizeOf y < n ∧ sizeOf rs < n := by
          simp at hsz
          omega
        have hna := (ih (sizeOf y) hyr.1).1 y le_rfl hy
        rw [evalRest]
        split
        · rename_i e heval
          rw [heval] at hna
          exact hna
        · rename_i rhs heval
          have happ := applyOp_no_assert c st rhs (by simp [hc])
          split
          · rename_i e happl
            rw [happl] at happ
            exact happ
          · exact (ih (sizeOf rs) hyr.2).2 _ rs le_rfl hrs

/-- C8: every AST a successful parse of the AST grammar produces is well
formed — all signs are `'+'` or `'-'`, all operators are `'+'`, `'-'`,
`'*'` or `'/'` — and consequently evaluating it never reaches either
`BOOST_ASSERT(0)` branch of `calc_program_eval`. -/
theorem calc_ast_wellformed_no_assert :
    ∀ fuel s x r, astPhraseParse fuel s = some (x, r) →
      wfOperand x = true ∧
      evalOperand x ≠ .error .badSign ∧ evalOperand x ≠ .error .badOp := by
  intro fuel s x r h
  have hwf := astPhraseParse_wf fuel s x r h
  exact ⟨hwf, (eval_wf_no_assert (sizeOf x)).1 x le_rfl hwf⟩

/-- Witness for C8: the parse of `"1+2"` produces the expected
well-formed AST program whose evaluation reaches no assertion branch. -/
theorem calc_ast_wellformed_no_assert_witness :
    wfOperand (.program (.program (.num 1) .nil)
      (.cons '+' (.program (.num 2) .nil) .nil)) = true ∧
    evalOperand (.program (.program (.num 1) .nil)
      (.cons '+' (.program (.num 2) .nil) .nil)) ≠ .error .badSign ∧
    evalOperand (.program (.program (.num 1) .nil)
      (.cons '+' (.program (.num 2) .nil) .nil)) ≠ .error .badOp :=
  calc_ast_wellformed_no_assert 32 (chars "1+2")
    (.program (.program (.num 1) .nil) (.cons '+' (.program (.num 2) .nil) .nil)) []
    rfl

/-- Tracked-value application of one operation: propagate an error
state, otherwise apply `applyOp` — the common shape of the four
compound-assignment semantic actions. -/
def applyOpE (c : Char) (st v : EvalRes) : EvalRes :=
  match st with
  | .error e => .error e
  | .ok a =>
    match v with
    | .error e => .error e
    | .ok b => applyOp c a b

/-- Helper for C9: `_val += _1` is `applyOpE '+'`. -/
theorem addE_applyOpE : ∀ st v, addE st v = applyOpE '+' st v := by
  intro st v
  cases st <;> cases v <;> simp [addE, applyOpE, applyOp]

/-- Helper for C9: `_val -= _1` is `applyOpE '-'`. -/
theorem subE_applyOpE : ∀ st v, subE st v = applyOpE '-' st v := by
  intro st v
  cases st <;> cases v <;> simp [subE, applyOpE, applyOp]

/-- Helper for C9: `_val *= _1` is `applyOpE '*'`. -/
theorem mulE_applyOpE : ∀ st v, mulE st v = applyOpE '*' st v := by
  intro st v
  cases st <;> cases v <;> simp [mulE, applyOpE, applyOp]

/-- Helper for C9: `_val /= _1` is `applyOpE '/'`. -/
theorem divE_applyOpE : ∀ st v, divE st v = applyOpE '/' st v := by
  intro st v
  cases st <;> cases v <;> simp [divE, applyOpE, applyOp]

/-- Pointwise image of an AST parse result under the evaluator: the
value the synthesized-attribute grammar tracks at the same point. -/
def evPair (p : CalcOperand × List Char) : EvalRes × List Char :=
  (evalOperand p.1, p.2)

/-- Fold of the evaluator's operation list against an already-tracked
accumulator state. -/
def foldE (st : EvalRes) (ops : CalcOps) : EvalRes :=
  match st with
  | .error e => .error e
  | .ok a => evalRest a ops

/-- Helper for C9: folding no operations returns the state. -/
theorem foldE_nil : ∀ st, foldE st .nil = st := by
  intro st
  cases st <;> simp [foldE, evalRest]

/-- Helper for C9: folding one more operation applies it to the
state. -/
theorem foldE_cons : ∀ st c x ops,
    foldE st (.cons c x ops) = foldE (applyOpE c st (evalOperand x)) ops := by
  intro st c x ops
  cases st with
  | error e => simp [foldE, applyOpE]
  | ok a =>
    cases hx : evalOperand x with
    | error e => simp [foldE, evalRest, hx, applyOpE]
    | ok b =>
      cases hap : applyOp c a b with
      | error e => simp [foldE, evalRest, hx, applyOpE, hap]
      | ok st2 => simp [foldE, evalRest, hx, applyOpE, hap]

/-- Helper for C9: evaluating a program folds its operations over the
evaluation of its first operand. -/
theorem evalOperand_program : ∀ f rest,
    evalOperand (.program f rest) = foldE (evalOperand f) rest := by
  intro f rest
  cases hf : evalOperand f with
  | error e => simp [evalOperand, hf, foldE]
  | ok a => simp [evalOperand, hf, foldE]

/-- Helper for C9: evaluating a minus-signed operand negates its
tracked value, `_val = -_1`. -/
theorem evalOperand_neg : ∀ x,
    evalOperand (.signedNumber '-' x) = negE (evalOperand x) := by
  intro x
  cases hx : evalOperand x with
  | error e => simp [evalOperand, hx, negE]
  | ok a => simp [evalOperand, hx, negE]

/-- Helper for C9: evaluating a plus-signed operand keeps its tracked
value, `_val = +_1`. -/
theorem evalOperand_pos : ∀ x,
    evalOperand (.signedNumber '+' x) = posE (evalOperand x) := by
  intro x
  cases hx : evalOperand x with
  | error e => simp [evalOperand, hx, posE]
  | ok a => simp [evalOperand, hx, posE]

/-- Helper for C9: the two grammars' repetition-body steps agree. -/
theorem sOpStep_eq :
    ∀ (sIt : List Char → Option (EvalRes × List Char))
      (aIt : List Char → Option (CalcOperand × List Char)) c,
      (∀ s, sIt s = (aIt s).map evPair) →
      ∀ s, sOpStep sIt c s = (opStep aIt c s).map evPair := by
  intro sIt aIt c hitem s
  rw [sOpStep, opStep]
  cases h : parseCharTok c s with
  | none => simp
  | some p => simp [hitem p.2]

/-- Helper for C9: the synthesized-attribute repetition folds exactly
the evaluation of the operation list the AST repetition collects. -/
theorem sStarOps_eq :
    ∀ (sIt : List Char → Option (EvalRes × List Char))
      (aIt : List Char → Option (CalcOperand × List Char)) c1 c2 g1 g2,
      (∀ s, sIt s = (aIt s).map evPair) →
      (∀ st v, g1 st v = applyOpE c1 st v) →
      (∀ st v, g2 st v = applyOpE c2 st v) →
      ∀ fuel st s, sStarOps sIt c1 c2 g1 g2 fuel st s =
        (starOps aIt c1 c2 fuel s).map (fun p => (foldE st p.1, p.2)) := by
  intro sIt aIt c1 c2 g1 g2 hitem hg1 hg2 fuel
  induction fuel with
  | zero => intro st s; simp [sStarOps, starOps]
  | succ n ih =>
    intro st s
    rw [sStarOps, starOps, sOpStep_eq sIt aIt c1 hitem s]
    cases h1 : opStep aIt c1 s with
    | some p =>
      simp only [Option.map_some']
      rw [show evPair p = (evalOperand p.1, p.2) from rfl]
      rw [ih (g1 st (evalOperand p.1)) p.2]
      cases h2 : starOps aIt c1 c2 n p.2 with
      | none => simp
      | some q => simp [foldE_cons, hg1]
    | none =>
      simp only [Option.map_none']
      rw [sOpStep_eq sIt aIt c2 hitem s]
      cases h2 : opStep aIt c2 s with
      | some p =>
        simp only [Option.map_some']
        rw [show evPair p = (evalOperand p.1, p.2) from rfl]
        rw [ih (g2 st (evalOperand p.1)) p.2]
        cases h3 : starOps aIt c1 c2 n p.2 with
        | none => simp
        | some q => simp [foldE_cons, hg2]
      | none => simp [foldE_nil]

/-- Helper for C9: the two `term` rules agree. -/
theorem sTermOf_eq :
    ∀ (sF : List Char → Option (EvalRes × List Char))
      (aF : List Char → Option (CalcOperand × List Char)),
      (∀ s, sF s = (aF s).map evPair) →
      ∀ fuel s, sTermOf sF fuel s = (termOf aF fuel s).map evPair := by
  intro sF aF hf fuel s
  rw [sTermOf, termOf, hf s]
  cases h : aF s with
  | none => simp
  | some p =>
    simp only [Option.map_some']
    rw [show evPair p = (evalOperand p.1, p.2) from rfl]
    rw [sStarOps_eq sF aF '*' '/' mulE divE hf mulE_applyOpE divE_applyOpE fuel
        (evalOperand p.1) p.2]
    cases h2 : starOps aF '*' '/' fuel p.2 with
    | none => simp
    | some q => simp [evPair, evalOperand_program]

/-- Helper for C9: the two `expression` rules agree. -/
theorem sExprOf_eq :
    ∀ (sF : List Char → Option (EvalRes × List Char))
      (aF : List Char → Option (CalcOperand × List Char)),
      (∀ s, sF s = (aF s).map evPair) →
      ∀ fuel s, sExprOf sF fuel s = (exprOf aF fuel s).map evPair := by
  intro sF aF hf fuel s
  rw [sExprOf, exprOf, sTermOf_eq sF aF hf fuel s]
  cases h : termOf aF fuel s with
  | none => simp
  | some p =>
    simp only [Option.map_some']
    rw [show evPair p = (evalOperand p.1, p.2) from rfl]
    rw [sStarOps_eq (sTermOf sF fuel) (termOf aF fuel) '+' '-' addE subE
        (sTermOf_eq sF aF hf fuel) addE_applyOpE subE_applyOpE fuel
        (evalOperand p.1) p.2]
    cases h2 : starOps (termOf aF fuel) '+' '-' fuel p.2 with
    | none => simp
    | some q => simp [evPair, evalOperand_program]

/-- Helper for C9: the two parenthesised-expression alternatives
agree. -/
theorem sParenOf_eq :
    ∀ (sF : List Char → Option (EvalRes × List Char))
      (aF : List Char → Option (CalcOperand × List Char)),
      (∀ s, sF s = (aF s).map evPair) →
      ∀ fuel s, sParenOf sF fuel s = (parenOf aF fuel s).map evPair := by
  intro sF aF hf fuel s
  rw [sParenOf, parenOf]
  cases h1 : parseLit '(' s with
  | none => simp
  | some s1 =>
    simp only []
    rw [sExprOf_eq sF aF hf fuel s1]
    cases h2 : exprOf aF fuel s1 with
    | none => simp
    | some p =>
      simp only [Option.map_some']
      rw [show evPair p = (evalOperand p.1, p.2) from rfl]
      cases h3 : parseLit ')' p.2 with
      | none => simp
      | some s3 => simp [evPair]

/-- Helper for C9: the two signed-factor alternatives agree, given that
the semantic action mirrors the evaluation of the signed node. -/
theorem sSignOf_eq :
    ∀ (sF : List Char → Option (EvalRes × List Char))
      (aF : List Char → Option (CalcOperand × List Char)) c act,
      (∀ s, sF s = (aF s).map evPair) →
      (∀ x, act (evalOperand x) = evalOperand (.signedNumber c x)) →
      ∀ s, sSignOf sF c act s = (signOf aF c s).map evPair := by
  intro sF aF c act hf hact s
  rw [sSignOf, signOf]
  cases h1 : parseCharTok c s with
  | none => simp
  | some p =>
    have hpc : p.1 = c := parseCharTok_fst c s p.1 p.2 (by rw [h1])
    simp only []
    rw [hf p.2]
    cases h2 : aF p.2 with
    | none => simp
    | some q =>
      simp only [Option.map_some']
      rw [show evPair q = (evalOperand q.1, q.2) from rfl]
      simp [evPair, hpc, hact q.1]

/-- Helper for C9: the two `factor` rules agree, by induction on the
fuel. -/
theorem sFactor_eq : ∀ fuel s, sFactor fuel s = (astFactor fuel s).map evPair := by
  intro fuel
  induction fuel with
  | zero => intro s; simp [sFactor, astFactor]
  | succ n ih =>
    intro s
    rw [sFactor, astFactor]
    cases h1 : parseUInt s with
    | some p => simp [evPair, evalOperand]
    | none =>
      simp only []
      rw [sParenOf_eq (sFactor n) (astFactor n) ih n s]
      cases h2 : parenOf (astFactor n) n s with
      | some p => simp
      | none =>
        simp only [Option.map_none']
        rw [sSignOf_eq (sFactor n) (astFactor n) '-' negE ih
            (fun x => (evalOperand_neg x).symm) s]
        cases h3 : signOf (astFactor n) '-' s with
        | some p => simp
        | none =>
          simp only [Option.map_none']
          exact sSignOf_eq (sFactor n) (astFactor n) '+' posE ih
            (fun x => (evalOperand_pos x).symm) s

/-- C9: for every line and every fuel, the synthesized-attribute
calculator and the AST calculator followed by `calc_program_eval` are
equivalent — both phrase parses fail together, and on success they
consume the same input and track the same evaluation result (including
the division-by-zero error state). -/
theorem calc_synth_ast_equivalent : ∀ fuel line,
    sPhraseParse fuel line = (astPhraseParse fuel line).map evPair := by
  intro fuel line
  rw [sPhraseParse, astPhraseParse]
  have hexpr : sExpression fuel line = (astExpression fuel line).map evPair := by
    rw [sExpression, astExpression]
    exact sExprOf_eq (sFactor fuel) (astFactor fuel) (sFactor_eq fuel) fuel line
  rw [hexpr]
  cases astExpression fuel line with
  | none => simp
  | some p => simp [evPair]
